import Mathlib

/-!
Shallow embedding of the `change` repository (a Prisma-schema-driven SQL
migration generator) and verification of its specification claims.

Embedded source files:
* `src/lib/schemaParser.ts`      — `parseSchema` and the schema data model
* `src/lib/schemaComparer.ts`    — `compareSchemas`, `compareModelFields`, `arraysEqual`
* `src/lib/migrationGenerator.ts`— `generateMigration` and the per-change SQL helpers
* `src/lib/migrationManager.ts`  — `getMigrations` (the migration store listing)

JavaScript runtime behaviour is modelled explicitly:
* a JS `Set` built from a list of strings is the list with later duplicates
  removed (insertion order, first occurrence kept): `jsSetList`;
* `Array.prototype.sort()` with no comparator on strings is a stable sort by
  code-unit order, modelled by the stable insertion sort `sortBy` with the
  lexicographic comparator `strLe`;
* filesystem effects are reified as a list of operations (`FsOp`);
* `new Date().toISOString()` is passed in as an explicit string argument;
* a thrown `TypeError` (property access on `undefined`) is `Except.error`.
-/

namespace DbMig

/-! ## Definitions: data model, JS-runtime models, and the embedded program -/

/-- Structure `ModelField` from schemaParser.ts: name, type, modifiers, attributes. -/
structure ModelField where
  name : String
  type : String
  modifiers : List String
  attributes : List String
deriving DecidableEq

/-- Structure `Model` from schemaParser.ts. -/
structure Model where
  name : String
  fields : List ModelField
deriving DecidableEq

/-- Structure `ParsedSchema` from schemaParser.ts.  The parser always leaves `enums`,
`generators` and `datasources` as empty placeholder collections; they are kept
in the shape as unit lists. -/
structure ParsedSchema where
  models : List Model
  enums : List Unit := []
  generators : List Unit := []
  datasources : List Unit := []
deriving DecidableEq

/-- The kind tag of `SchemaChange` from schemaComparer.ts (string union in TS). -/
inductive ChangeType where
  | CREATE_MODEL
  | DELETE_MODEL
  | ALTER_MODEL
  | CREATE_FIELD
  | DELETE_FIELD
  | ALTER_FIELD
deriving DecidableEq

/-- The dynamically typed `oldValue` / `newValue` payloads (`any` in TS): the
comparer only ever stores a `Model` or a `ModelField` there. -/
inductive ChangeValue where
  | model (m : Model)
  | field (f : ModelField)
deriving DecidableEq

/-- Structure `SchemaChange` from schemaComparer.ts.  Optional TS properties become
`Option`. -/
structure SchemaChange where
  type : ChangeType
  model : Option String := none
  field : Option String := none
  oldValue : Option ChangeValue := none
  newValue : Option ChangeValue := none
deriving DecidableEq

/-- Insert-if-absent, the construction step of a JS `Set`: each element of
the source list is added once, in first-occurrence order, skipping elements
already seen. -/
def jsSetAux (seen : List String) : List String → List String
  | [] => []
  | x :: xs =>
    if seen.contains x then jsSetAux seen xs
    else x :: jsSetAux (seen ++ [x]) xs

/-- A JS `Set` constructed from a list of strings, read back in iteration
order: insertion order with only the first occurrence of each element kept. -/
def jsSetList (l : List String) : List String := jsSetAux [] l

/-- Lexicographic comparison of char lists by code point, the order JS uses
to compare strings (code-unit order; identical for the ASCII data here). -/
def charListLe : List Char → List Char → Bool
  | [], _ => true
  | _ :: _, [] => false
  | a :: as, b :: bs =>
    if a.toNat < b.toNat then true
    else if b.toNat < a.toNat then false
    else charListLe as bs

/-- The default JS `Array.prototype.sort()` comparator on strings. -/
def strLe (a b : String) : Bool := charListLe a.data b.data

/-- Stable insertion: an element is placed before the first strictly larger
element and after earlier equal ones. -/
def orderedInsertBy (le : α → α → Bool) (x : α) : List α → List α
  | [] => [x]
  | y :: ys => if le x y then x :: y :: ys else y :: orderedInsertBy le x ys

/-- Stable insertion sort.  `Array.prototype.sort` is required to be a stable
sort, and for a comparator that is a total preorder all stable sorts agree,
so this models the JS sort exactly. -/
def sortBy (le : α → α → Bool) : List α → List α
  | [] => []
  | x :: xs => orderedInsertBy le x (sortBy le xs)

/-- Function `arraysEqual` from schemaComparer.ts: equal length, and the two arrays
sorted with the default comparator agree index by index. -/
def arraysEqual (a b : List String) : Bool :=
  if a.length ≠ b.length then false
  else
    let sortedA := sortBy strLe a
    let sortedB := sortBy strLe b
    (sortedA.zip sortedB).all (fun p => p.1 == p.2)

/-- The created-fields loop of `compareModelFields` (schemaComparer.ts):
iterate the JS `Set` of new field names, emitting a `CREATE_FIELD` for each
name absent from the old ones. -/
def cmfCreated (oldModel newModel : Model) : List SchemaChange :=
  (jsSetList (newModel.fields.map (fun f => f.name))).flatMap (fun fieldName =>
    if (jsSetList (oldModel.fields.map (fun f => f.name))).contains fieldName then
      []
    else
      [{ type := .CREATE_FIELD, model := some newModel.name,
         field := some fieldName,
         newValue := (newModel.fields.find? (fun f => f.name == fieldName)).map
           ChangeValue.field }])

/-- The deleted-fields loop of `compareModelFields`. -/
def cmfDeleted (oldModel newModel : Model) : List SchemaChange :=
  (jsSetList (oldModel.fields.map (fun f => f.name))).flatMap (fun fieldName =>
    if (jsSetList (newModel.fields.map (fun f => f.name))).contains fieldName then
      []
    else
      [{ type := .DELETE_FIELD, model := some oldModel.name,
         field := some fieldName }])

/-- The modified-fields loop of `compareModelFields`: for each field name in
both models, look both versions up and emit an `ALTER_FIELD` when the type,
the modifiers or the attributes differ (`arraysEqual` after sorting for the
latter two).  The TS non-null assertions on `find` are modelled by a `match`
whose impossible branch contributes nothing. -/
def cmfModified (oldModel newModel : Model) : List SchemaChange :=
  (jsSetList (oldModel.fields.map (fun f => f.name))).flatMap (fun fieldName =>
    if (jsSetList (newModel.fields.map (fun f => f.name))).contains fieldName then
      match oldModel.fields.find? (fun f => f.name == fieldName),
            newModel.fields.find? (fun f => f.name == fieldName) with
      | some oldField, some newField =>
        if oldField.type != newField.type
            || !(arraysEqual oldField.modifiers newField.modifiers)
            || !(arraysEqual oldField.attributes newField.attributes) then
          [{ type := .ALTER_FIELD, model := some oldModel.name,
             field := some fieldName,
             oldValue := some (.field oldField),
             newValue := some (.field newField) }]
        else []
      | _, _ => []
    else [])

/-- Function `compareModelFields` from schemaComparer.ts: the three loops push into one
`changes` array — created fields, then deleted fields, then altered fields. -/
def compareModelFields (oldModel newModel : Model) : List SchemaChange :=
  cmfCreated oldModel newModel ++ cmfDeleted oldModel newModel
    ++ cmfModified oldModel newModel

/-- The created-models loop of `compareSchemas` (schemaComparer.ts). -/
def csCreated (oldSchema newSchema : ParsedSchema) : List SchemaChange :=
  (jsSetList (newSchema.models.map (fun m => m.name))).flatMap (fun modelName =>
    if (jsSetList (oldSchema.models.map (fun m => m.name))).contains modelName then
      []
    else
      [{ type := .CREATE_MODEL, model := some modelName,
         newValue := (newSchema.models.find? (fun m => m.name == modelName)).map
           ChangeValue.model }])

/-- The deleted-models loop of `compareSchemas`. -/
def csDeleted (oldSchema newSchema : ParsedSchema) : List SchemaChange :=
  (jsSetList (oldSchema.models.map (fun m => m.name))).flatMap (fun modelName =>
    if (jsSetList (newSchema.models.map (fun m => m.name))).contains modelName then
      []
    else [{ type := .DELETE_MODEL, model := some modelName }])

/-- The modified-models loop of `compareSchemas`: for each model name in both
schemas, compare the two versions field by field. -/
def csModified (oldSchema newSchema : ParsedSchema) : List SchemaChange :=
  (jsSetList (oldSchema.models.map (fun m => m.name))).flatMap (fun modelName =>
    if (jsSetList (newSchema.models.map (fun m => m.name))).contains modelName then
      match oldSchema.models.find? (fun m => m.name == modelName),
            newSchema.models.find? (fun m => m.name == modelName) with
      | some oldModel, some newModel => compareModelFields oldModel newModel
      | _, _ => []
    else [])

/-- Function `compareSchemas` from schemaComparer.ts: created models, then deleted
models, then the field-level changes of the models present in both. -/
def compareSchemas (oldSchema newSchema : ParsedSchema) : List SchemaChange :=
  csCreated oldSchema newSchema ++ csDeleted oldSchema newSchema
    ++ csModified oldSchema newSchema

/-- Structure `Migration` from migrationGenerator.ts. -/
structure Migration where
  id : String
  name : String
  timestamp : String
  upSql : String
  downSql : String
deriving DecidableEq

/-- A reified filesystem write, standing in for the `fs-extra` calls made by
`saveMigrationFiles`. -/
inductive FsOp where
  | ensureDir (p : String)
  | writeJson (p : String) (id name timestamp : String)
  | writeFile (p : String) (content : String)
deriving DecidableEq

/-- Bool test for a list prefix, used to model `String.prototype.includes`. -/
def charsHavePrefix : List Char → List Char → Bool
  | [], _ => true
  | _ :: _, [] => false
  | p :: ps, c :: cs => p == c && charsHavePrefix ps cs

/-- Bool test for a contiguous sublist. -/
def charsContain (needle : List Char) : List Char → Bool
  | [] => needle.isEmpty
  | c :: cs => charsHavePrefix needle (c :: cs) || charsContain needle cs

/-- JS `s.includes(pat)`: `pat` occurs as a contiguous substring of `s`. -/
def strContains (s pat : String) : Bool := charsContain pat.data s.data

/-- JS `String.prototype.toLowerCase` on the ASCII names involved, as an
explicit map over the characters. -/
def jsToLower (s : String) : String := String.mk (s.data.map Char.toLower)

/-- The `typeMap` record from migrationGenerator.ts; indexing a JS record with
an absent key yields `undefined`, hence `Option`. -/
def typeMap (t : String) : Option String :=
  if t == "String" then some ("TEXT")
  else if t == "Int" then some ("INTEGER")
  else if t == "Float" then some ("REAL")
  else if t == "Boolean" then some ("BOOLEAN")
  else if t == "DateTime" then some ("TIMESTAMP")
  else if t == "Json" then some ("JSONB")
  else none

/-- The constraint-accumulation loop that appears verbatim in both
`generateCreateTableSql` and `generateAddColumnSql`:

    for (const attr of field.attributes) {
      if (attr.includes("@id")) constraints.push("PRIMARY KEY");
      if (attr.includes("@unique")) constraints.push("UNIQUE");
      if (!attr.includes("?") && !attr.includes("@default"))
        constraints.push("NOT NULL");
    }
-/
def fieldConstraints (attributes : List String) : List String :=
  attributes.foldl (fun constraints attr =>
    let constraints :=
      if strContains attr ("@id") then constraints ++ ["PRIMARY KEY"] else constraints
    let constraints :=
      if strContains attr ("@unique") then constraints ++ ["UNIQUE"] else constraints
    if !(strContains attr ("?")) && !(strContains attr ("@default")) then
      constraints ++ ["NOT NULL"]
    else constraints) []

/-- One column line of a generated `CREATE TABLE`:
constant `  ${field.name} ${sqlType} ${constraints.join(" ")}`. -/
def columnDefinition (field : ModelField) : String :=
  let sqlType := (typeMap field.type).getD ("TEXT")
  let constraints := fieldConstraints field.attributes
  "  " ++ field.name ++ " " ++ sqlType ++ " " ++ String.intercalate (" ") constraints

/-- Function `generateCreateTableSql` from migrationGenerator.ts, returning
`(createTableSql, dropTableSql)`.  Accessing `.name`/`.fields` on a missing or
non-model `newValue` would throw in JS, hence `Except`. -/
def generateCreateTableSql (change : SchemaChange) :
    Except Unit (String × String) :=
  match change.newValue with
  | some (.model model) =>
    let tableName := jsToLower model.name
    let columnDefinitions :=
      String.intercalate (",\n") (model.fields.map columnDefinition)
    let createTableSql :=
      "CREATE TABLE " ++ tableName ++ " (\n" ++ columnDefinitions ++ "\n);"
    let dropTableSql := "DROP TABLE IF EXISTS " ++ tableName ++ ";"
    .ok (createTableSql, dropTableSql)
  | _ => .error ()

/-- Function `generateDropTableSql` from migrationGenerator.ts, returning
`(createTableSqlReverse, dropTableSqlReverse)`; total because the source only
reads `change.model` behind `?.` and `|| ""`. -/
def generateDropTableSql (change : SchemaChange) : String × String :=
  let tableName := (change.model.map jsToLower).getD ("")
  let dropTableSqlReverse := "DROP TABLE IF EXISTS " ++ tableName ++ ";"
  let createTableSqlReverse :=
    "-- To properly reverse this migration, you need to recreate the table with its original structure\n-- CREATE TABLE "
      ++ tableName ++ " (...);"
  (createTableSqlReverse, dropTableSqlReverse)

/-- Function `generateAddColumnSql` from migrationGenerator.ts, returning
`(addColumnSql, dropColumnSql)`. -/
def generateAddColumnSql (change : SchemaChange) :
    Except Unit (String × String) :=
  match change.newValue with
  | some (.field field) =>
    let tableName := (change.model.map jsToLower).getD ("")
    let sqlType := (typeMap field.type).getD ("TEXT")
    let constraints := fieldConstraints field.attributes
    let addColumnSql :=
      "ALTER TABLE " ++ tableName ++ " ADD COLUMN " ++ field.name ++ " "
        ++ sqlType ++ " " ++ String.intercalate (" ") constraints ++ ";"
    let dropColumnSql :=
      "ALTER TABLE " ++ tableName ++ " DROP COLUMN " ++ field.name ++ ";"
    .ok (addColumnSql, dropColumnSql)
  | _ => .error ()

/-- Function `generateDropColumnSql` from migrationGenerator.ts, returning
`(addColumnSqlReverse, dropColumnSqlReverse)`; total like
`generateDropTableSql`. -/
def generateDropColumnSql (change : SchemaChange) : String × String :=
  let tableName := (change.model.map jsToLower).getD ("")
  let fieldName := change.field.getD ("")
  let dropColumnSqlReverse :=
    "ALTER TABLE " ++ tableName ++ " DROP COLUMN " ++ fieldName ++ ";"
  let addColumnSqlReverse :=
    "-- To properly reverse this migration, you need to add the column back with its original definition\n-- ALTER TABLE "
      ++ tableName ++ " ADD COLUMN " ++ fieldName ++ " ...;"
  (addColumnSqlReverse, dropColumnSqlReverse)

/-- Function `generateAlterColumnSql` from migrationGenerator.ts, returning
`(alterColumnSql, revertColumnSql)`. -/
def generateAlterColumnSql (change : SchemaChange) :
    Except Unit (String × String) :=
  match change.oldValue, change.newValue with
  | some (.field oldField), some (.field newField) =>
    let tableName := (change.model.map jsToLower).getD ("")
    let oldSqlType := (typeMap oldField.type).getD ("TEXT")
    let newSqlType := (typeMap newField.type).getD ("TEXT")
    let alterColumnSql :=
      "ALTER TABLE " ++ tableName ++ " ALTER COLUMN " ++ newField.name
        ++ " TYPE " ++ newSqlType
        ++ ";\n-- Additional constraints may need to be modified separately"
    let revertColumnSql :=
      "ALTER TABLE " ++ tableName ++ " ALTER COLUMN " ++ oldField.name
        ++ " TYPE " ++ oldSqlType
        ++ ";\n-- Additional constraints may need to be modified separately"
    .ok (alterColumnSql, revertColumnSql)
  | _, _ => .error ()

/-- One iteration of the `switch (change.type)` in `generateMigration`:
`some (up, down)` when a pair of statements is pushed, `none` when no case
matches (`ALTER_MODEL` has no case in the source switch). -/
def changeStatements (change : SchemaChange) :
    Except Unit (Option (String × String)) :=
  match change.type with
  | .CREATE_MODEL =>
    (generateCreateTableSql change).map
      (fun p => some (p.1, p.2))
  | .DELETE_MODEL =>
    let p := generateDropTableSql change
    .ok (some (p.2, p.1))
  | .CREATE_FIELD =>
    (generateAddColumnSql change).map (fun p => some (p.1, p.2))
  | .DELETE_FIELD =>
    let p := generateDropColumnSql change
    .ok (some (p.2, p.1))
  | .ALTER_FIELD =>
    (generateAlterColumnSql change).map (fun p => some (p.1, p.2))
  | .ALTER_MODEL => .ok none

/-- The `for (const change of changes)` loop of `generateMigration`, collecting
the `(up, down)` statement pairs in input order; the first thrown error aborts
the call, as in JS. -/
def collectStatements : List SchemaChange → Except Unit (List (String × String))
  | [] => .ok []
  | c :: cs =>
    match changeStatements c with
    | .error e => .error e
    | .ok none => collectStatements cs
    | .ok (some p) => (collectStatements cs).map (fun ps => p :: ps)

/-- The timestamp expression of `generateMigration`:
`new Date().toISOString().replace(/[^\d]/g, "").slice(0, 14)`, with the
ISO-format wall-clock string passed in explicitly. -/
def migrationTimestamp (isoNow : String) : String :=
  String.mk ((isoNow.data.filter Char.isDigit).take 14)

/-- Function `saveMigrationFiles` from migrationGenerator.ts as its sequence of
filesystem effects (`path.join` on these separator-free segments is plain
`"/"`-concatenation). -/
def saveMigrationFiles (migration : Migration) (migrationsDir : String) :
    List FsOp :=
  let migrationDir := migrationsDir ++ "/" ++ migration.id
  [ .ensureDir migrationDir,
    .writeJson (migrationDir ++ "/migration.json")
      migration.id migration.name migration.timestamp,
    .writeFile (migrationDir ++ "/up.sql") migration.upSql,
    .writeFile (migrationDir ++ "/down.sql") migration.downSql ]

/-- Function `generateMigration` from migrationGenerator.ts.  The wall-clock reading is
the `isoNow` argument; the result couples the returned `Migration | null` with
the list of filesystem writes performed.  JS truthiness of `migrationName`
(absent or empty string is falsy) is modelled explicitly. -/
def generateMigration (changes : List SchemaChange) (migrationsDir : String)
    (migrationName : Option String) (isoNow : String) :
    Except Unit (Option Migration × List FsOp) :=
  if changes.length = 0 then .ok (none, [])
  else
    match collectStatements changes with
    | .error e => .error e
    | .ok pairs =>
      let timestamp := migrationTimestamp isoNow
      let nameTruthy := match migrationName with
        | some n => !n.isEmpty
        | none => false
      let migrationId :=
        timestamp ++ (if nameTruthy then ("_" ++ migrationName.getD ("")) else (""))
      let upSql := String.intercalate ("\n\n") (pairs.map Prod.fst)
      let downSql := String.intercalate ("\n\n") (pairs.map Prod.snd)
      let migration : Migration :=
        { id := migrationId,
          name := if nameTruthy then migrationName.getD ("")
                  else ("migration_" ++ timestamp),
          timestamp := timestamp,
          upSql := upSql,
          downSql := downSql }
      .ok (some migration, saveMigrationFiles migration migrationsDir)

/-- One immediate child of the migrations root, as observed by
`getMigrations`: its name, whether it is a directory, which of the three
required files exist, the parse of `migration.json` (`none` models a
`readJson` failure, caught and logged by the source), and the two SQL file
contents. -/
structure MigrationDirEntry where
  name : String
  isDir : Bool
  hasMetadata : Bool
  hasUpSql : Bool
  hasDownSql : Bool
  metadata : Option (String × String × String)
  upSqlContent : String
  downSqlContent : String
deriving DecidableEq

/-- Method `MigrationManager.getMigrations`: skip non-directories, include an entry
only when `migration.json`, `up.sql` and `down.sql` all exist and the metadata
reads back, then sort by `timestamp` ascending (the `localeCompare` comparator
on these digit strings coincides with code-unit order; JS sort is stable). -/
def getMigrations (entries : List MigrationDirEntry) : List Migration :=
  sortBy (fun a b => strLe a.timestamp b.timestamp)
    (entries.flatMap (fun e =>
      if !e.isDir then []
      else if e.hasMetadata && e.hasUpSql && e.hasDownSql then
        match e.metadata with
        | some (id, name, timestamp) =>
          [{ id := id, name := name, timestamp := timestamp,
             upSql := e.upSqlContent, downSql := e.downSqlContent }]
        | none => []
      else []))

/-- JS `\w`. -/
def isJsWord (c : Char) : Bool := c.isAlphanum || c == '_'

/-- Strip a literal prefix, or fail. -/
def charsDropPrefix : List Char → List Char → Option (List Char)
  | [], cs => some cs
  | _ :: _, [] => none
  | p :: ps, c :: cs => if c == p then charsDropPrefix ps cs else none

/-- Try to match `model\s+(\w+)\s+{([^}]*)}` exactly at the head of `cs`,
returning the captured name, the captured block body, and the remainder of the
input after the match. -/
def matchModelAt (cs : List Char) : Option (String × String × List Char) :=
  match charsDropPrefix [ 'm', 'o', 'd', 'e', 'l' ] cs with
  | none => none
  | some cs1 =>
    if (cs1.takeWhile Char.isWhitespace).isEmpty then none
    else if ((cs1.dropWhile Char.isWhitespace).takeWhile isJsWord).isEmpty then
      none
    else if (((cs1.dropWhile Char.isWhitespace).dropWhile
        isJsWord).takeWhile Char.isWhitespace).isEmpty then none
    else
      match ((cs1.dropWhile Char.isWhitespace).dropWhile
          isJsWord).dropWhile Char.isWhitespace with
      | '{' :: cs4 =>
        match cs4.dropWhile (fun c => !(c == '}')) with
        | '}' :: rest =>
          some (String.mk ((cs1.dropWhile Char.isWhitespace).takeWhile isJsWord),
            String.mk (cs4.takeWhile (fun c => !(c == '}'))), rest)
        | _ => none
      | _ => none

/-- Advance over the input one character at a time to the leftmost position
where the model pattern matches, as the regex engine does. -/
def findModelMatch : List Char → Option (String × String × List Char)
  | [] => none
  | c :: rest =>
    match matchModelAt (c :: rest) with
    | some r => some r
    | none => findModelMatch rest

/-- The `while ((modelMatch = modelRegex.exec(schemaContent)) !== null)` loop:
collect all matches of the model pattern, each scan resuming after the end of
the previous match.  The recursion is bounded by a fuel argument so that the
definition is structural (and so computes by reduction);
`scanModelsFuel_stable` shows any fuel above the input length gives the same
result, so the bound is immaterial. -/
def scanModelsFuel : Nat → List Char → List (String × String)
  | 0, _ => []
  | fuel + 1, cs =>
    match findModelMatch cs with
    | none => []
    | some (nm, body, rest) => (nm, body) :: scanModelsFuel fuel rest

/-- All model-block matches of the schema content. -/
def scanModels (cs : List Char) : List (String × String) :=
  scanModelsFuel (cs.length + 1) cs

/-- JS `String.prototype.trim` over the characters (whitespace stripped from
both ends). -/
def trimChars (cs : List Char) : List Char :=
  ((cs.dropWhile Char.isWhitespace).reverse.dropWhile Char.isWhitespace).reverse

/-- JS `modelContent.split("\n")`: split at each newline, keeping empty pieces,
as JS `split` with a string separator does. -/
def splitLinesAux (cur : List Char) : List Char → List (List Char)
  | [] => [cur.reverse]
  | c :: cs =>
    if c == '\n' then cur.reverse :: splitLinesAux [] cs
    else splitLinesAux (c :: cur) cs

/-- All `"\n"`-separated lines of a character list. -/
def splitLines (cs : List Char) : List (List Char) := splitLinesAux [] cs

/-- JS `trimmedLine.split(/\s+/)` on an already-trimmed line: the maximal
nonempty whitespace-free tokens in order (on a trimmed string the JS split
produces no empty tokens). -/
def splitWsAux (cur : List Char) : List Char → List String
  | [] => if cur.isEmpty then [] else [String.mk cur.reverse]
  | c :: cs =>
    if Char.isWhitespace c then
      if cur.isEmpty then splitWsAux [] cs
      else String.mk cur.reverse :: splitWsAux [] cs
    else splitWsAux (c :: cur) cs

/-- Whitespace-separated tokens of a character list. -/
def splitJsWhitespace (cs : List Char) : List String := splitWsAux [] cs

/-- The global regex `/@[^@]+/g` over a line: each match is an `@` followed by
a maximal nonempty run of non-`@` characters, and the scan resumes at the end
of the match (or one character later when no match starts here).  Fuel keeps
the recursion structural; `attrMatchesFuel_stable` shows the bound is
immaterial. -/
def attrMatchesFuel : Nat → List Char → List String
  | 0, _ => []
  | fuel + 1, cs =>
    match cs with
    | [] => []
    | c :: rest =>
      if c == '@' then
        if (rest.takeWhile (fun d => !(d == '@'))).isEmpty then
          attrMatchesFuel fuel rest
        else
          ("@" ++ String.mk (rest.takeWhile (fun d => !(d == '@')))) ::
            attrMatchesFuel fuel (rest.dropWhile (fun d => !(d == '@')))
      else attrMatchesFuel fuel rest

/-- All matches of `/@[^@]+/g` over a line. -/
def attrMatches (cs : List Char) : List String :=
  attrMatchesFuel (cs.length + 1) cs

/-- JS `fieldType.replace("[]", "")`: JS `String.prototype.replace` with a string
pattern replaces only the first occurrence. -/
def replaceFirstChars (pat rep : List Char) : List Char → List Char
  | [] => []
  | c :: cs =>
    if charsHavePrefix pat (c :: cs) then rep ++ (c :: cs).drop pat.length
    else c :: replaceFirstChars pat rep cs

/-- The per-block field loop of `parseSchema`: split the block body into
lines, skip blank and `//` lines and lines with fewer than two tokens, take
the first token as name and the second as type, record the `array` modifier
for a trailing `[]`, and collect the `@...` attribute matches of the whole
line, trimmed. -/
def parseFields (modelContent : String) : List ModelField :=
  let fieldLines := splitLines (trimChars modelContent.data)
  fieldLines.flatMap (fun line =>
    let trimmedLine := trimChars line
    if trimmedLine.isEmpty || charsHavePrefix [ '/', '/' ] trimmedLine then []
    else
      match splitJsWhitespace trimmedLine with
      | fieldName :: fieldType :: _ =>
        [{ name := fieldName,
           type := String.mk (replaceFirstChars [ '[', ']' ] [] fieldType.data),
           modifiers :=
             if charsHavePrefix [ ']', '[' ] fieldType.data.reverse then ["array"]
             else [],
           attributes := (attrMatches trimmedLine).map
             (fun a => String.mk (trimChars a.data)) }]
      | _ => [])

/-- Function `parseSchema` from schemaParser.ts, applied to the schema file content
(the file read itself is I/O and stays outside the embedding).  Enums,
generators and datasources are left as the placeholder empty collections the
source initializes and never fills. -/
def parseSchema (schemaContent : String) : ParsedSchema :=
  { models := (scanModels schemaContent.data).map (fun nb =>
      { name := nb.1, fields := parseFields nb.2 }),
    enums := [], generators := [], datasources := [] }

/-- Old `User` model of the concrete scenario (spec §8): fields
`id Int @id`, `email String @unique`, `name String`. -/
def c2OldUser : Model := { name := "User", fields := [
  { name := "id", type := "Int", modifiers := [], attributes := ["@id"] },
  { name := "email", type := "String", modifiers := [], attributes := ["@unique"] },
  { name := "name", type := "String", modifiers := [], attributes := [] } ] }

/-- The `bio String?` field: the optionality marker is part of the parsed
type token, so the type reads `String?` and the attribute list is empty. -/
def c2BioField : ModelField :=
  { name := "bio", type := "String?", modifiers := [], attributes := [] }

/-- A field carrying both `@id` and `@unique` attributes. -/
def c1TagField : ModelField :=
  { name := "tag", type := "String", modifiers := [], attributes := ["@id", "@unique"] }

/-- A `CREATE_FIELD` change adding `c1TagField` to `User`. -/
def c1TagChange : SchemaChange :=
  { type := .CREATE_FIELD, model := some ("User"), field := some ("tag"),
    newValue := some (.field c1TagField) }

/-- New `User`: old fields plus `bio String?`. -/
def c2NewUser : Model := { name := "User", fields := c2OldUser.fields ++ [c2BioField] }

/-- New `Post` model: `id Int @id`, `title String`. -/
def c2Post : Model := { name := "Post", fields := [
  { name := "id", type := "Int", modifiers := [], attributes := ["@id"] },
  { name := "title", type := "String", modifiers := [], attributes := [] } ] }

def c2OldSchema : ParsedSchema := { models := [c2OldUser] }

def c2NewSchema : ParsedSchema := { models := [c2NewUser, c2Post] }

/-- The result of running the generator on the diff of the concrete scenario
(migrations directory and wall clock are arbitrary concrete values; the SQL
text does not depend on them). -/
def c2Result : Except Unit (Option Migration × List FsOp) :=
  generateMigration (compareSchemas c2OldSchema c2NewSchema) ("migrations")
    none ("2024-01-01T00:00:00.000Z")

/-- The generated migration of the concrete scenario, if any. -/
def c2Migration : Option Migration :=
  match c2Result with
  | .ok (m, _) => m
  | .error _ => none

/-- Schema text with two `model A` blocks (used against the parser-uniqueness
claim). -/
def c7DupModelText : String :=
  "model A \x7b\n x Int\n\x7d\nmodel A \x7b\n y Int\n\x7d"

/-- Schema text whose single block declares the field name `x` twice. -/
def c7DupFieldText : String :=
  "model B \x7b\n x Int\n x String\n\x7d"

/-- A change list for exercising timestamp behaviour (a lone `DELETE_MODEL`,
which generates SQL without needing payloads). -/
def c8Changes : List SchemaChange := [ { type := .DELETE_MODEL, model := some ("User") } ]

/-- The generator applied to `c8Changes` with a fixed name, as a function of
the wall clock. -/
def c8Gen (isoNow : String) : Except Unit (Option Migration × List FsOp) :=
  generateMigration c8Changes ("migrations") (some ("drop_user")) isoNow

/-- The per-attribute constraint contribution, written after the (amended)
spec wording: `@id` contributes PRIMARY KEY, then `@unique` contributes
UNIQUE, then an attribute containing neither `?` nor `@default` contributes
NOT NULL. -/
def perAttrConstraints (attr : String) : List String :=
  (if strContains attr ("@id") then ["PRIMARY KEY"] else []) ++
  (if strContains attr ("@unique") then ["UNIQUE"] else []) ++
  (if !(strContains attr ("?")) && !(strContains attr ("@default")) then
    ["NOT NULL"] else [])

deriving instance DecidableEq for Except

/-- A two-model schema used as the concrete instance for claim C3. -/
def c3Schema : ParsedSchema := { models := [
  { name := "User", fields := [
    { name := "id", type := "Int", modifiers := [], attributes := ["@id"] } ] },
  { name := "Post", fields := [
    { name := "id", type := "Int", modifiers := [], attributes := ["@id"] },
    { name := "tags", type := "String", modifiers := ["array"],
      attributes := [] } ] } ] }

def c10Old : ParsedSchema := { models := [ { name := "A", fields := [] } ] }

def c10New : ParsedSchema := { models := [] }

def c10Change : SchemaChange := { type := .DELETE_MODEL, model := some ("A") }

/-- The created-models section, written after the spec: one `CREATE_MODEL`
per model of the new schema whose name is absent from the old schema, in new
schema order, carrying the full model snapshot. -/
def specCreatedModelChanges (oldS newS : ParsedSchema) : List SchemaChange :=
  (newS.models.filter (fun m =>
    !((oldS.models.map (fun x => x.name)).contains m.name))).map
    (fun m => { type := .CREATE_MODEL, model := some m.name,
                newValue := some (.model m) })

/-- The deleted-models section, written after the spec. -/
def specDeletedModelChanges (oldS newS : ParsedSchema) : List SchemaChange :=
  (oldS.models.filter (fun m =>
    !((newS.models.map (fun x => x.name)).contains m.name))).map
    (fun m => { type := .DELETE_MODEL, model := some m.name })

/-- The common-models section, written after the spec: for each model of the
old schema (in old order) whose name also occurs in the new schema, the
field-level changes against its new version. -/
def specCommonModelChanges (oldS newS : ParsedSchema) : List SchemaChange :=
  (oldS.models.filter (fun m =>
    (newS.models.map (fun x => x.name)).contains m.name)).flatMap
    (fun m => match newS.models.find? (fun y => y.name == m.name) with
      | some m2 => compareModelFields m m2
      | none => [])

def c5Field1 : ModelField :=
  { name := "tag", type := "String", modifiers := [],
    attributes := ["@a", "@b"] }

def c5Field2 : ModelField :=
  { name := "tag", type := "String", modifiers := [],
    attributes := ["@b", "@a"] }

def c5OldModel : Model := { name := "User", fields := [c5Field1] }

def c5NewModel : Model := { name := "User", fields := [c5Field2] }

/-- The migration read back from a complete, well-formed migration directory,
written after the spec: metadata from `migration.json`, SQL from the two
files. -/
def entryToMigration (e : MigrationDirEntry) : Migration :=
  match e.metadata with
  | some (id, name, ts) =>
    { id := id, name := name, timestamp := ts,
      upSql := e.upSqlContent, downSql := e.downSqlContent }
  | none => { id := "", name := "", timestamp := "", upSql := "", downSql := "" }

/-- The listing contract, written after the spec: keep exactly the immediate
subdirectories holding all three required files, read each into a
`Migration`, and order by timestamp ascending. -/
def specListedMigrations (entries : List MigrationDirEntry) : List Migration :=
  sortBy (fun a b => strLe a.timestamp b.timestamp)
    ((entries.filter (fun e =>
      e.isDir && e.hasMetadata && e.hasUpSql && e.hasDownSql)).map
      entryToMigration)

/-- A migrations root with one complete directory and one directory missing
`down.sql`. -/
def c9Entries : List MigrationDirEntry := [
  { name := "20240101000000_a", isDir := true, hasMetadata := true,
    hasUpSql := true, hasDownSql := true,
    metadata := some ("20240101000000_a", "a", "20240101000000"),
    upSqlContent := "CREATE TABLE a ();",
    downSqlContent := "DROP TABLE IF EXISTS a;" },
  { name := "20240102000000_b", isDir := true, hasMetadata := true,
    hasUpSql := true, hasDownSql := false,
    metadata := some ("20240102000000_b", "b", "20240102000000"),
    upSqlContent := "CREATE TABLE b ();", downSqlContent := "" } ]

def c4Old : ParsedSchema := { models := [
  { name := "User", fields := [
    { name := "id", type := "Int", modifiers := [], attributes := ["@id"] },
    { name := "age", type := "Int", modifiers := [], attributes := [] } ] },
  { name := "Legacy", fields := [
    { name := "id", type := "Int", modifiers := [], attributes := ["@id"] } ] } ] }

def c4New : ParsedSchema := { models := [
  { name := "User", fields := [
    { name := "id", type := "Int", modifiers := [], attributes := ["@id"] },
    { name := "email", type := "String", modifiers := [],
      attributes := ["@unique"] } ] },
  { name := "Post", fields := [
    { name := "id", type := "Int", modifiers := [], attributes := ["@id"] } ] } ] }

def c5OldSchema : ParsedSchema := { models := [c5OldModel] }

def c5NewSchema : ParsedSchema := { models := [c5NewModel] }

/-! ## Theorems -/

theorem charsDropPrefix_length {ps cs rest : List Char}
    (h : charsDropPrefix ps cs = some rest) :
    rest.length + ps.length = cs.length := by
  induction ps generalizing cs with
  | nil =>
    simp only [charsDropPrefix, Option.some.injEq] at h
    simp [← h]
  | cons p ps ih =>
    match cs with
    | [] => simp [charsDropPrefix] at h
    | c :: cs =>
      simp only [charsDropPrefix] at h
      split at h
      · have := ih h
        simp only [List.length_cons]
        omega
      · exact absurd h (by simp)

/-- A successful match strictly consumes input, so the global regex loop
terminates. -/
theorem matchModelAt_length {cs : List Char} {nm body : String}
    {rest : List Char} (h : matchModelAt cs = some (nm, body, rest)) :
    rest.length < cs.length := by
  unfold matchModelAt at h
  split at h
  · exact absurd h (by simp)
  next cs1 hdrop =>
    have h1 : cs1.length + 5 = cs.length := by
      simpa using charsDropPrefix_length hdrop
    split at h
    · exact absurd h (by simp)
    · split at h
      · exact absurd h (by simp)
      · split at h
        · exact absurd h (by simp)
        · split at h
          next cs4 hspace =>
            split at h
            next rest0 hbrace =>
              have hr : rest0.length + 1 ≤ cs4.length := by
                have := congrArg List.length hbrace
                simp only [List.length_cons] at this
                have hle := (List.dropWhile_sublist (l := cs4)
                  (fun c => !(c == '}'))).length_le
                omega
              have h4 : cs4.length + 1 ≤
                  ((cs1.dropWhile Char.isWhitespace).dropWhile isJsWord).length := by
                have := congrArg List.length hspace
                simp only [List.length_cons] at this
                have hle := (List.dropWhile_sublist
                  (l := (cs1.dropWhile Char.isWhitespace).dropWhile isJsWord)
                  Char.isWhitespace).length_le
                omega
              have h5 : ((cs1.dropWhile Char.isWhitespace).dropWhile isJsWord).length
                  ≤ cs1.length := by
                have hle1 := (List.dropWhile_sublist
                  (l := cs1.dropWhile Char.isWhitespace) isJsWord).length_le
                have hle2 := (List.dropWhile_sublist (l := cs1)
                  Char.isWhitespace).length_le
                omega
              simp only [Option.some.injEq, Prod.mk.injEq] at h
              have hre : rest0 = rest := h.2.2
              subst hre
              omega
            · exact absurd h (by simp)
          · exact absurd h (by simp)

theorem findModelMatch_length {cs : List Char} {nm body : String}
    {rest : List Char} (h : findModelMatch cs = some (nm, body, rest)) :
    rest.length < cs.length := by
  induction cs with
  | nil => simp [findModelMatch] at h
  | cons c cs ih =>
    unfold findModelMatch at h
    split at h
    next r hm =>
      cases h
      exact matchModelAt_length hm
    next =>
      have := ih h
      simp only [List.length_cons]
      omega

theorem scanModelsFuel_stable :
    ∀ (fuel : Nat) (cs : List Char), cs.length < fuel →
      scanModelsFuel fuel cs = scanModelsFuel (cs.length + 1) cs := by
  intro fuel
  induction fuel using Nat.strong_induction_on with
  | _ fuel ih =>
    intro cs hlt
    match fuel, hlt with
    | fuel + 1, hlt =>
      show (match findModelMatch cs with
        | none => []
        | some (nm, body, rest) => (nm, body) :: scanModelsFuel fuel rest) =
          (match findModelMatch cs with
        | none => []
        | some (nm, body, rest) => (nm, body) :: scanModelsFuel cs.length rest)
      match hm : findModelMatch cs with
      | none => rfl
      | some (nm, body, rest) =>
        have hr : rest.length < cs.length := findModelMatch_length hm
        have h1 : scanModelsFuel fuel rest =
            scanModelsFuel (rest.length + 1) rest :=
          ih fuel (Nat.lt_succ_self fuel) rest (by omega)
        have h2 : scanModelsFuel cs.length rest =
            scanModelsFuel (rest.length + 1) rest :=
          ih cs.length (by omega) rest hr
        simp [h1, h2]

theorem attrMatchesFuel_succ (fuel : Nat) (c : Char) (rest : List Char) :
    attrMatchesFuel (fuel + 1) (c :: rest) =
      if c == '@' then
        if (rest.takeWhile (fun d => !(d == '@'))).isEmpty then
          attrMatchesFuel fuel rest
        else
          ("@" ++ String.mk (rest.takeWhile (fun d => !(d == '@')))) ::
            attrMatchesFuel fuel (rest.dropWhile (fun d => !(d == '@')))
      else attrMatchesFuel fuel rest := rfl

theorem attrMatchesFuel_stable :
    ∀ (fuel : Nat) (cs : List Char), cs.length < fuel →
      attrMatchesFuel fuel cs = attrMatchesFuel (cs.length + 1) cs := by
  intro fuel
  induction fuel using Nat.strong_induction_on with
  | _ fuel ih =>
    intro cs hlt
    match fuel, hlt with
    | fuel + 1, hlt =>
      match cs with
      | [] => rfl
      | c :: rest =>
        simp only [List.length_cons] at hlt ⊢
        have hlen : rest.length < fuel := by omega
        have hdl : (rest.dropWhile (fun d => !(d == '@'))).length ≤
            rest.length :=
          (List.dropWhile_sublist _).length_le
        rw [attrMatchesFuel_succ, attrMatchesFuel_succ]
        by_cases hc : (c == '@') = true
        · by_cases hb : (rest.takeWhile (fun d => !(d == '@'))).isEmpty = true
          · rw [if_pos hc, if_pos hc, if_pos hb, if_pos hb,
              ih fuel (Nat.lt_succ_self fuel) rest hlen,
              ih (rest.length + 1) (by omega) rest (Nat.lt_succ_self _)]
          · rw [if_pos hc, if_pos hc, if_neg hb, if_neg hb,
              ih fuel (Nat.lt_succ_self fuel) _ (by omega),
              ih (rest.length + 1) (by omega) _ (by omega)]
        · rw [if_neg hc, if_neg hc,
            ih fuel (Nat.lt_succ_self fuel) rest hlen,
            ih (rest.length + 1) (by omega) rest (Nat.lt_succ_self _)]

/-- Claim C6: `generate` with an empty change list returns an absent result —
not an error, not a `Migration` — and performs no filesystem writes. -/
theorem c6_generate_empty (migrationsDir : String)
    (migrationName : Option String) (isoNow : String) :
    generateMigration [] migrationsDir migrationName isoNow = .ok (none, []) := rfl

/-- Claim C2 (concrete scenario): diffing the `User`-only schema against the
schema with `Post` and `User.bio` yields exactly `CreateModel(Post)` then
`CreateField(User.bio)`, and generation produces the expected up and down
SQL, with no NOT NULL on `bio`. -/
theorem c2_concrete_scenario :
    compareSchemas c2OldSchema c2NewSchema = [
      { type := .CREATE_MODEL, model := some ("Post"),
        newValue := some (.model c2Post) },
      { type := .CREATE_FIELD, model := some ("User"), field := some ("bio"),
        newValue := some (.field c2BioField) } ]
    ∧ c2Migration.map (fun m => m.upSql) =
        some ("CREATE TABLE post (\n  id INTEGER PRIMARY KEY NOT NULL,\n  title TEXT \n);\n\nALTER TABLE user ADD COLUMN bio TEXT ;")
    ∧ c2Migration.map (fun m => m.downSql) =
        some ("DROP TABLE IF EXISTS post;\n\nALTER TABLE user DROP COLUMN bio;")
    ∧ (c2Migration.map (fun m => strContains m.upSql ("CREATE TABLE post")))
        = some true
    ∧ (c2Migration.map (fun m =>
        strContains m.upSql ("ALTER TABLE user ADD COLUMN bio TEXT")))
        = some true
    ∧ (c2Migration.map (fun m => strContains m.upSql ("bio TEXT NOT NULL")))
        = some false
    ∧ (c2Migration.map (fun m =>
        strContains m.downSql ("DROP TABLE IF EXISTS post"))) = some true
    ∧ (c2Migration.map (fun m =>
        strContains m.downSql ("ALTER TABLE user DROP COLUMN bio")))
        = some true := by
  refine ⟨by decide, by decide, by decide, by decide, by decide, by decide,
    by decide, by decide⟩

/-- Counterexample to claim C1: constraints are accumulated per attribute, so
a field with attributes `@id` and `@unique` renders
`PRIMARY KEY NOT NULL UNIQUE NOT NULL` — `NOT NULL` appears twice and
`UNIQUE` comes after a `NOT NULL` — and a field with no attributes renders no
constraints at all (no `NOT NULL` despite having no optionality or default
marker). -/
theorem c1_counterexample :
    fieldConstraints ["@id", "@unique"] =
      ["PRIMARY KEY", "NOT NULL", "UNIQUE", "NOT NULL"]
    ∧ (fieldConstraints ["@id", "@unique"]).count ("NOT NULL") = 2
    ∧ fieldConstraints [] = []
    ∧ (generateAddColumnSql c1TagChange).toOption.map Prod.fst =
      some ("ALTER TABLE user ADD COLUMN tag TEXT PRIMARY KEY NOT NULL UNIQUE NOT NULL;") := by
  refine ⟨by decide, by decide, by decide, by decide⟩

/-- Counterexample to claim C7: the parser enforces no uniqueness — a schema
text with two `model A` blocks parses to two models named `A`, and a block
with two `x` lines parses to two fields named `x`. -/
theorem c7_counterexample :
    (parseSchema c7DupModelText).models.map (fun m => m.name) = ["A", "A"]
    ∧ ¬ ((parseSchema c7DupModelText).models.map (fun m => m.name)).Nodup
    ∧ (parseSchema c7DupFieldText).models.map
        (fun m => m.fields.map (fun f => f.name)) = [["x", "x"]]
    ∧ ¬ ((parseSchema c7DupFieldText).models.map
        (fun m => m.fields.map (fun f => f.name))).all (fun ns => ns.Nodup) := by
  refine ⟨by decide, by decide, by decide, by decide⟩

/-- Claim C7, amended: the parser emits one model per matched block and one
field per well-formed line, in source order, preserving duplicate names
verbatim (uniqueness holds only if the source text already has it). -/
theorem c7_parser_preserves_duplicates :
    parseSchema c7DupModelText = { models := [
      { name := "A", fields := [
        { name := "x", type := "Int", modifiers := [], attributes := [] } ] },
      { name := "A", fields := [
        { name := "y", type := "Int", modifiers := [], attributes := [] } ] } ] }
    ∧ parseSchema c7DupFieldText = { models := [
      { name := "B", fields := [
        { name := "x", type := "Int", modifiers := [], attributes := [] },
        { name := "x", type := "String", modifiers := [], attributes := [] } ] } ] } := by
  refine ⟨by decide, by decide⟩

/-- Counterexample to claim C8: two generation calls in the same wall-clock
second (distinct instants `.100Z` and `.900Z`) produce byte-identical
results — equal timestamps, the same reused id, and the very same file
writes, with no rejection or disambiguation. -/
theorem c8_counterexample :
    migrationTimestamp ("2024-01-02T03:04:05.100Z") =
      migrationTimestamp ("2024-01-02T03:04:05.900Z")
    ∧ ("2024-01-02T03:04:05.100Z" : String) ≠ "2024-01-02T03:04:05.900Z"
    ∧ c8Gen ("2024-01-02T03:04:05.100Z") = c8Gen ("2024-01-02T03:04:05.900Z")
    ∧ (c8Gen ("2024-01-02T03:04:05.100Z")).toOption.map
        (fun r => r.1.map (fun m => m.id)) =
      some (some ("20240102030405_drop_user")) := by
  refine ⟨by decide, by decide, by decide, by decide⟩

/-- Claim C8, amended: the timestamp is the wall clock truncated to whole
seconds, so any two generation calls whose clock readings agree at
second granularity produce identical migrations and identical filesystem
writes — the id is silently reused and the files overwritten. -/
theorem c8_same_second_same_result (changes : List SchemaChange)
    (migrationsDir : String) (migrationName : Option String)
    (iso1 iso2 : String)
    (hts : migrationTimestamp iso1 = migrationTimestamp iso2) :
    generateMigration changes migrationsDir migrationName iso1 =
      generateMigration changes migrationsDir migrationName iso2 := by
  unfold generateMigration
  rw [hts]

/-- Witness for the amended C8 theorem at the concrete same-second instants. -/
theorem c8_same_second_same_result_witness :
    c8Gen ("2024-01-02T03:04:05.100Z") = c8Gen ("2024-01-02T03:04:05.900Z") :=
  c8_same_second_same_result c8Changes ("migrations") (some ("drop_user"))
    ("2024-01-02T03:04:05.100Z") ("2024-01-02T03:04:05.900Z") (by decide)

/-- The loop body of `fieldConstraints` appends exactly the per-attribute
contribution. -/
theorem fieldConstraints_step (constraints : List String) (attr : String) :
    (let c1 :=
      if strContains attr ("@id") then constraints ++ ["PRIMARY KEY"] else constraints
    let c2 :=
      if strContains attr ("@unique") then c1 ++ ["UNIQUE"] else c1
    if !(strContains attr ("?")) && !(strContains attr ("@default")) then
      c2 ++ ["NOT NULL"]
    else c2) = constraints ++ perAttrConstraints attr := by
  simp only [perAttrConstraints]
  by_cases h1 : strContains attr ("@id") = true <;>
    by_cases h2 : strContains attr ("@unique") = true <;>
    by_cases h3 :
      (!(strContains attr ("?")) && !(strContains attr ("@default"))) = true <;>
    simp [h1, h2, h3]

theorem fieldConstraints_go (attrs : List String) :
    ∀ acc : List String,
      attrs.foldl (fun constraints attr =>
        let constraints :=
          if strContains attr ("@id") then constraints ++ ["PRIMARY KEY"]
          else constraints
        let constraints :=
          if strContains attr ("@unique") then constraints ++ ["UNIQUE"]
          else constraints
        if !(strContains attr ("?")) && !(strContains attr ("@default")) then
          constraints ++ ["NOT NULL"]
        else constraints) acc = acc ++ attrs.flatMap perAttrConstraints := by
  induction attrs with
  | nil => intro acc; simp
  | cons a l ih =>
    intro acc
    simp only [List.foldl_cons, List.flatMap_cons]
    rw [show (let constraints :=
        if strContains a ("@id") then acc ++ ["PRIMARY KEY"] else acc
      let constraints :=
        if strContains a ("@unique") then constraints ++ ["UNIQUE"]
        else constraints
      if !(strContains a ("?")) && !(strContains a ("@default")) then
        constraints ++ ["NOT NULL"]
      else constraints) = acc ++ perAttrConstraints a from fieldConstraints_step acc a]
    rw [ih (acc ++ perAttrConstraints a), List.append_assoc]

/-- Claim C1, amended: the constraint list is the concatenation of the
per-attribute contributions in attribute order, and each single attribute
contributes a duplicate-free sublist of `PRIMARY KEY, UNIQUE, NOT NULL` in
that fixed order; duplicates and order inversions arise only across several
attributes, and a field with no attributes contributes nothing. -/
theorem c1_constraints_per_attribute (attrs : List String) :
    fieldConstraints attrs = attrs.flatMap perAttrConstraints
    ∧ ∀ a : String,
        (perAttrConstraints a).Sublist ["PRIMARY KEY", "UNIQUE", "NOT NULL"] := by
  constructor
  · unfold fieldConstraints
    simpa only [List.nil_append] using fieldConstraints_go attrs []
  · intro a
    unfold perAttrConstraints
    by_cases h1 : strContains a ("@id") = true <;>
      by_cases h2 : strContains a ("@unique") = true <;>
      by_cases h3 :
        (!(strContains a ("?")) && !(strContains a ("@default"))) = true <;>
      simp [h1, h2, h3] <;> decide

theorem mem_jsSetAux {x : String} :
    ∀ {l seen : List String}, x ∈ jsSetAux seen l ↔ x ∈ l ∧ x ∉ seen := by
  intro l
  induction l with
  | nil => intro seen; simp [jsSetAux]
  | cons y ys ih =>
    intro seen
    by_cases hc : seen.contains y = true
    · rw [jsSetAux, if_pos hc]
      constructor
      · intro h
        obtain ⟨hm, hs⟩ := ih.1 h
        exact ⟨List.mem_cons_of_mem _ hm, hs⟩
      · rintro ⟨hor, hs⟩
        rcases List.mem_cons.1 hor with h | h
        · subst h; exact absurd (List.elem_iff.1 hc) hs
        · exact ih.2 ⟨h, hs⟩
    · rw [jsSetAux, if_neg hc]
      have hyseen : y ∉ seen := fun hmem => hc (List.elem_iff.2 hmem)
      constructor
      · intro h
        rcases List.mem_cons.1 h with h | h
        · subst h; exact ⟨List.mem_cons_self _ _, hyseen⟩
        · obtain ⟨hm, hs⟩ := ih.1 h
          rw [List.mem_append] at hs
          push_neg at hs
          exact ⟨List.mem_cons_of_mem _ hm, hs.1⟩
      · rintro ⟨hor, hs⟩
        by_cases hxy : x = y
        · subst hxy; exact List.mem_cons_self _ _
        · rcases List.mem_cons.1 hor with h | h
          · exact absurd h hxy
          · refine List.mem_cons_of_mem _ (ih.2 ⟨h, ?_⟩)
            rw [List.mem_append]
            push_neg
            exact ⟨hs, by simp [hxy]⟩

theorem mem_jsSetList {x : String} {l : List String} :
    x ∈ jsSetList l ↔ x ∈ l := by
  rw [jsSetList, mem_jsSetAux]
  simp

theorem jsSetAux_eq_self :
    ∀ {l seen : List String}, l.Nodup → (∀ y ∈ l, y ∉ seen) →
      jsSetAux seen l = l := by
  intro l
  induction l with
  | nil => intro seen _ _; rfl
  | cons y ys ih =>
    intro seen hnd hs
    have hy : y ∉ seen := hs y (List.mem_cons_self _ _)
    rw [jsSetAux, if_neg (fun hc => hy (List.elem_iff.1 hc))]
    congr 1
    refine ih (List.nodup_cons.1 hnd).2 ?_
    intro z hz
    rw [List.mem_append]
    push_neg
    refine ⟨hs z (List.mem_cons_of_mem _ hz), ?_⟩
    have : z ≠ y := fun h => (List.nodup_cons.1 hnd).1 (h ▸ hz)
    simp [this]

theorem jsSetList_eq_self {l : List String} (h : l.Nodup) : jsSetList l = l :=
  jsSetAux_eq_self h (fun _ _ => List.not_mem_nil _)

theorem flatMap_nil_of {l : List α} {f : α → List β}
    (h : ∀ x ∈ l, f x = []) : l.flatMap f = [] := by
  induction l with
  | nil => rfl
  | cons a l ih =>
    rw [List.flatMap_cons, h a (List.mem_cons_self _ _),
      ih (fun x hx => h x (List.mem_cons_of_mem _ hx))]
    rfl

theorem flatMap_congr_mem {l : List α} {f g : α → List β}
    (h : ∀ x ∈ l, f x = g x) : l.flatMap f = l.flatMap g := by
  induction l with
  | nil => rfl
  | cons a l ih =>
    rw [List.flatMap_cons, List.flatMap_cons, h a (List.mem_cons_self _ _),
      ih (fun x hx => h x (List.mem_cons_of_mem _ hx))]

theorem flatMap_ite_nil_first {l : List α} {p : α → Bool} {g : α → β} :
    l.flatMap (fun x => if p x then [] else [g x]) =
      (l.filter (fun x => !p x)).map g := by
  induction l with
  | nil => rfl
  | cons a l ih =>
    by_cases h : p a = true <;>
      simp [List.flatMap_cons, List.filter_cons, h, ih]

theorem flatMap_ite_body {l : List α} {p : α → Bool} {body : α → List β} :
    l.flatMap (fun x => if p x then body x else []) =
      (l.filter p).flatMap body := by
  induction l with
  | nil => rfl
  | cons a l ih =>
    by_cases h : p a = true <;>
      simp [List.flatMap_cons, List.filter_cons, h, ih]

theorem charListLe_cons_iff {a b : Char} {as bs : List Char} :
    charListLe (a :: as) (b :: bs) = true ↔
      a.toNat < b.toNat ∨ (a.toNat = b.toNat ∧ charListLe as bs = true) := by
  simp only [charListLe]
  by_cases h1 : a.toNat < b.toNat
  · simp [h1]
  · by_cases h2 : b.toNat < a.toNat
    · simp [h1, h2]
      omega
    · have he : a.toNat = b.toNat := by omega
      simp [h1, h2, he]

theorem charListLe_total : ∀ as bs : List Char,
    charListLe as bs = true ∨ charListLe bs as = true
  | [], _ => by left; rfl
  | _ :: _, [] => by right; rfl
  | a :: as, b :: bs => by
    rw [charListLe_cons_iff, charListLe_cons_iff]
    rcases Nat.lt_trichotomy a.toNat b.toNat with h | h | h
    · left; left; exact h
    · rcases charListLe_total as bs with ih | ih
      · left; right; exact ⟨h, ih⟩
      · right; right; exact ⟨h.symm, ih⟩
    · right; left; exact h

theorem charListLe_trans : ∀ {as bs cs : List Char},
    charListLe as bs = true → charListLe bs cs = true →
      charListLe as cs = true
  | [], _, _, _, _ => rfl
  | _ :: _, [], _, h1, _ => by simp [charListLe] at h1
  | _ :: _, _ :: _, [], _, h2 => by simp [charListLe] at h2
  | a :: as, b :: bs, c :: cs, h1, h2 => by
    rw [charListLe_cons_iff] at h1 h2 ⊢
    rcases h1 with h1 | ⟨e1, r1⟩
    · rcases h2 with h2 | ⟨e2, r2⟩ <;> (left; omega)
    · rcases h2 with h2 | ⟨e2, r2⟩
      · left; omega
      · right; exact ⟨by omega, charListLe_trans r1 r2⟩

theorem char_eq_of_toNat_eq {a b : Char} (h : a.toNat = b.toNat) : a = b :=
  Char.eq_of_val_eq (UInt32.ext h)

theorem charListLe_antisymm : ∀ {as bs : List Char},
    charListLe as bs = true → charListLe bs as = true → as = bs
  | [], [], _, _ => rfl
  | [], _ :: _, _, h2 => by simp [charListLe] at h2
  | _ :: _, [], h1, _ => by simp [charListLe] at h1
  | a :: as, b :: bs, h1, h2 => by
    rw [charListLe_cons_iff] at h1 h2
    rcases h1 with h1 | ⟨e1, r1⟩
    · exfalso
      rcases h2 with h2 | ⟨e2, _⟩ <;> omega
    · rcases h2 with h2 | ⟨e2, r2⟩
      · exfalso; omega
      · have he : a = b := char_eq_of_toNat_eq e1
        subst he
        rw [charListLe_antisymm r1 r2]

theorem string_ext {a b : String} (h : a.data = b.data) : a = b := by
  cases a; cases b; cases h; rfl

theorem strLe_total (a b : String) : strLe a b = true ∨ strLe b a = true :=
  charListLe_total a.data b.data

theorem strLe_trans {a b c : String} (h1 : strLe a b = true)
    (h2 : strLe b c = true) : strLe a c = true :=
  charListLe_trans h1 h2

theorem strLe_antisymm {a b : String} (h1 : strLe a b = true)
    (h2 : strLe b a = true) : a = b :=
  string_ext (charListLe_antisymm h1 h2)

theorem mem_orderedInsertBy {le : α → α → Bool} {x y : α} :
    ∀ {l : List α}, y ∈ orderedInsertBy le x l ↔ y = x ∨ y ∈ l := by
  intro l
  induction l with
  | nil => simp [orderedInsertBy]
  | cons z zs ih =>
    by_cases h : le x z = true <;> simp [orderedInsertBy, h, ih] <;> tauto

theorem orderedInsertBy_perm (le : α → α → Bool) (x : α) :
    ∀ l : List α, (orderedInsertBy le x l).Perm (x :: l) := by
  intro l
  induction l with
  | nil => simp [orderedInsertBy]
  | cons z zs ih =>
    by_cases h : le x z = true
    · rw [orderedInsertBy, if_pos h]
    · rw [orderedInsertBy, if_neg h]
      exact (ih.cons z).trans (List.Perm.swap x z zs)

theorem sortBy_perm (le : α → α → Bool) :
    ∀ l : List α, (sortBy le l).Perm l := by
  intro l
  induction l with
  | nil => exact List.Perm.refl _
  | cons x xs ih =>
    exact (orderedInsertBy_perm le x (sortBy le xs)).trans (ih.cons x)

theorem pairwise_orderedInsertBy {le : α → α → Bool}
    (total : ∀ a b : α, le a b = true ∨ le b a = true)
    (htrans : ∀ a b c : α, le a b = true → le b c = true → le a c = true)
    (x : α) :
    ∀ {l : List α}, l.Pairwise (fun a b => le a b = true) →
      (orderedInsertBy le x l).Pairwise (fun a b => le a b = true) := by
  intro l
  induction l with
  | nil => intro _; simp [orderedInsertBy]
  | cons z zs ih =>
    intro h
    obtain ⟨hz, hzs⟩ := List.pairwise_cons.1 h
    by_cases hle : le x z = true
    · rw [orderedInsertBy, if_pos hle]
      refine List.pairwise_cons.2 ⟨?_, h⟩
      intro w hw
      rcases List.mem_cons.1 hw with hw | hw
      · subst hw; exact hle
      · exact htrans x z w hle (hz w hw)
    · rw [orderedInsertBy, if_neg hle]
      refine List.pairwise_cons.2 ⟨?_, ih hzs⟩
      intro w hw
      rcases mem_orderedInsertBy.1 hw with hw | hw
      · rcases total x z with h | h
        · exact absurd h hle
        · rw [hw]; exact h
      · exact hz w hw

theorem pairwise_sortBy {le : α → α → Bool}
    (total : ∀ a b : α, le a b = true ∨ le b a = true)
    (htrans : ∀ a b c : α, le a b = true → le b c = true → le a c = true)
    (l : List α) :
    (sortBy le l).Pairwise (fun a b => le a b = true) := by
  induction l with
  | nil => simp [sortBy]
  | cons x xs ih => exact pairwise_orderedInsertBy total htrans x ih

theorem sortBy_eq_of_perm {le : α → α → Bool}
    (total : ∀ a b : α, le a b = true ∨ le b a = true)
    (htrans : ∀ a b c : α, le a b = true → le b c = true → le a c = true)
    (hanti : ∀ a b : α, le a b = true → le b a = true → a = b)
    {l₁ l₂ : List α} (h : l₁.Perm l₂) : sortBy le l₁ = sortBy le l₂ := by
  haveI : IsAntisymm α (fun a b => le a b = true) := ⟨hanti⟩
  exact List.eq_of_perm_of_sorted
    ((sortBy_perm le l₁).trans (h.trans (sortBy_perm le l₂).symm))
    (pairwise_sortBy total htrans l₁) (pairwise_sortBy total htrans l₂)

theorem zip_all_beq_self : ∀ l : List String,
    ((l.zip l).all fun p => p.1 == p.2) = true := by
  intro l
  induction l with
  | nil => rfl
  | cons x xs ih => simp [List.zip_cons_cons, ih]

theorem eq_of_zip_all_beq : ∀ {l₁ l₂ : List String},
    l₁.length = l₂.length → ((l₁.zip l₂).all fun p => p.1 == p.2) = true →
      l₁ = l₂
  | [], [], _, _ => rfl
  | x :: xs, y :: ys, hlen, hall => by
    simp only [List.zip_cons_cons, List.all_cons, Bool.and_eq_true,
      beq_iff_eq] at hall
    rw [hall.1, eq_of_zip_all_beq (by simpa using hlen) hall.2]

theorem arraysEqual_self (a : List String) : arraysEqual a a = true := by
  rw [arraysEqual, if_neg (by simp)]
  exact zip_all_beq_self _

theorem arraysEqual_iff_perm {a b : List String} :
    arraysEqual a b = true ↔ a.Perm b := by
  constructor
  · intro h
    rw [arraysEqual] at h
    by_cases hlen : a.length = b.length
    · rw [if_neg (by simp [hlen])] at h
      have hsort : sortBy strLe a = sortBy strLe b :=
        eq_of_zip_all_beq
          (by rw [(sortBy_perm strLe a).length_eq,
            (sortBy_perm strLe b).length_eq, hlen]) h
      exact (sortBy_perm strLe a).symm.trans (hsort ▸ sortBy_perm strLe b)
    · rw [if_pos (by simpa using hlen)] at h
      exact absurd h (by simp)
  · intro h
    rw [arraysEqual, if_neg (by simp [h.length_eq])]
    rw [sortBy_eq_of_perm strLe_total (fun a b c => strLe_trans)
      (fun a b => strLe_antisymm) h]
    exact zip_all_beq_self _

theorem find?_key_eq (key : α → String) :
    ∀ {l : List α}, (l.map key).Nodup → ∀ {x}, x ∈ l →
      l.find? (fun y => key y == key x) = some x := by
  intro l
  induction l with
  | nil => intro _ x hx; simp at hx
  | cons z zs ih =>
    intro hnd x hx
    rw [List.map_cons] at hnd
    obtain ⟨hz, hzs⟩ := List.nodup_cons.1 hnd
    by_cases hzx : (key z == key x) = true
    · rcases List.mem_cons.1 hx with h | h
      · subst h
        rw [List.find?_cons]
        simp
      · exact absurd (List.mem_map_of_mem key h) (beq_iff_eq.1 hzx ▸ hz)
    · rw [List.find?_cons]
      simp only [hzx]
      rcases List.mem_cons.1 hx with h | h
      · subst h; simp at hzx
      · exact ih hzs h

theorem find?_mem_key (key : α → String) {l : List α} {n : String}
    (h : n ∈ l.map key) :
    ∃ x, l.find? (fun y => key y == n) = some x ∧ x ∈ l ∧ key x = n := by
  induction l with
  | nil => simp at h
  | cons z zs ih =>
    by_cases hz : (key z == n) = true
    · refine ⟨z, ?_, List.mem_cons_self _ _, beq_iff_eq.1 hz⟩
      rw [List.find?_cons]
      simp [hz]
    · rw [List.map_cons, List.mem_cons] at h
      rcases h with h | h
      · exact absurd (beq_iff_eq.2 h.symm) (by simpa using hz)
      · obtain ⟨x, hf, hm, hk⟩ := ih h
        refine ⟨x, ?_, List.mem_cons_of_mem _ hm, hk⟩
        rw [List.find?_cons]
        simp only [hz]
        exact hf

theorem compareModelFields_self (m : Model) : compareModelFields m m = [] := by
  have h1 : cmfCreated m m = [] := by
    apply flatMap_nil_of
    intro x hx
    rw [if_pos (List.elem_iff.2 hx)]
  have h2 : cmfDeleted m m = [] := by
    apply flatMap_nil_of
    intro x hx
    rw [if_pos (List.elem_iff.2 hx)]
  have h3 : cmfModified m m = [] := by
    apply flatMap_nil_of
    intro x hx
    rw [if_pos (List.elem_iff.2 hx)]
    cases hfind : m.fields.find? (fun f => f.name == x) with
    | none => rfl
    | some f => simp [arraysEqual_self]
  rw [compareModelFields, h1, h2, h3]
  rfl

/-- Claim C3: for any schema with unique model names and unique field names
per model, comparing it with itself yields no changes (the uniqueness
hypotheses are those of the claim; the result in fact needs neither). -/
theorem c3_diff_self_empty (S : ParsedSchema)
    (hm : (S.models.map (fun m => m.name)).Nodup)
    (hf : ∀ m ∈ S.models, (m.fields.map (fun f => f.name)).Nodup) :
    compareSchemas S S = [] := by
  have h1 : csCreated S S = [] := by
    apply flatMap_nil_of
    intro x hx
    rw [if_pos (List.elem_iff.2 hx)]
  have h2 : csDeleted S S = [] := by
    apply flatMap_nil_of
    intro x hx
    rw [if_pos (List.elem_iff.2 hx)]
  have h3 : csModified S S = [] := by
    apply flatMap_nil_of
    intro x hx
    rw [if_pos (List.elem_iff.2 hx)]
    cases hfind : S.models.find? (fun m => m.name == x) with
    | none => rfl
    | some m => exact compareModelFields_self m
  rw [compareSchemas, h1, h2, h3]
  rfl

/-- Witness instantiating C3 at `c3Schema`. -/
theorem c3_diff_self_empty_witness :
    ((c3Schema.models.map (fun m => m.name)).Nodup
      ∧ ∀ m ∈ c3Schema.models, (m.fields.map (fun f => f.name)).Nodup)
    ∧ compareSchemas c3Schema c3Schema = [] :=
  ⟨⟨by decide, by decide⟩, c3_diff_self_empty c3Schema (by decide) (by decide)⟩

theorem compareModelFields_shape {a b : Model} :
    ∀ c ∈ compareModelFields a b,
      (c.type = .CREATE_FIELD ∨ c.type = .DELETE_FIELD ∨ c.type = .ALTER_FIELD)
      ∧ (c.model = some a.name ∨ c.model = some b.name)
      ∧ c.field ≠ none := by
  intro c hc
  rw [compareModelFields] at hc
  rcases List.mem_append.1 hc with hc | hc
  · rcases List.mem_append.1 hc with hc | hc
    · obtain ⟨n, hn, hcn⟩ := List.mem_flatMap.1 hc
      split at hcn
      · simp at hcn
      · rw [List.mem_singleton] at hcn
        subst hcn
        exact ⟨Or.inl rfl, Or.inr rfl, by simp⟩
    · obtain ⟨n, hn, hcn⟩ := List.mem_flatMap.1 hc
      split at hcn
      · simp at hcn
      · rw [List.mem_singleton] at hcn
        subst hcn
        exact ⟨Or.inr (Or.inl rfl), Or.inl rfl, by simp⟩
  · obtain ⟨n, hn, hcn⟩ := List.mem_flatMap.1 hc
    split at hcn
    · split at hcn
      · split at hcn
        · rw [List.mem_singleton] at hcn
          subst hcn
          exact ⟨Or.inr (Or.inr rfl), Or.inl rfl, by simp⟩
        · simp at hcn
      · simp at hcn
    · simp at hcn

/-- Claim C10: every change emitted by the differ has one of the five
produced kinds (never `ALTER_MODEL`), carries a model name, and — when it is
a field-level change — carries a field name. -/
theorem c10_change_shape (oldS newS : ParsedSchema) :
    ∀ c ∈ compareSchemas oldS newS,
      c.type ≠ .ALTER_MODEL
      ∧ c.model ≠ none
      ∧ ((c.type = .CREATE_FIELD ∨ c.type = .DELETE_FIELD
          ∨ c.type = .ALTER_FIELD) → c.field ≠ none) := by
  intro c hc
  rw [compareSchemas] at hc
  rcases List.mem_append.1 hc with hc | hc
  · rcases List.mem_append.1 hc with hc | hc
    · obtain ⟨n, hn, hcn⟩ := List.mem_flatMap.1 hc
      split at hcn
      · simp at hcn
      · rw [List.mem_singleton] at hcn
        subst hcn
        refine ⟨by simp, by simp, ?_⟩
        rintro (h | h | h) <;> simp at h
    · obtain ⟨n, hn, hcn⟩ := List.mem_flatMap.1 hc
      split at hcn
      · simp at hcn
      · rw [List.mem_singleton] at hcn
        subst hcn
        refine ⟨by simp, by simp, ?_⟩
        rintro (h | h | h) <;> simp at h
  · obtain ⟨n, hn, hcn⟩ := List.mem_flatMap.1 hc
    split at hcn
    · split at hcn
      · obtain ⟨hk, hm, hfld⟩ := compareModelFields_shape c hcn
        refine ⟨?_, ?_, fun _ => hfld⟩
        · rcases hk with h | h | h <;> simp [h]
        · rcases hm with h | h <;> simp [h]
      · simp at hcn
    · simp at hcn

/-- Witness instantiating C10 at a concrete deleted-model change. -/
theorem c10_change_shape_witness :
    c10Change ∈ compareSchemas c10Old c10New
    ∧ (c10Change.type ≠ .ALTER_MODEL
      ∧ c10Change.model ≠ none
      ∧ ((c10Change.type = .CREATE_FIELD ∨ c10Change.type = .DELETE_FIELD
          ∨ c10Change.type = .ALTER_FIELD) → c10Change.field ≠ none)) :=
  ⟨by decide, c10_change_shape c10Old c10New c10Change (by decide)⟩

theorem find?_model_name_eq {l : List Model}
    (h : (l.map (fun m => m.name)).Nodup) {m : Model} (hm : m ∈ l) :
    l.find? (fun y => y.name == m.name) = some m :=
  find?_key_eq (fun m => m.name) h hm

theorem find?_field_name_eq {l : List ModelField}
    (h : (l.map (fun f => f.name)).Nodup) {f : ModelField} (hf : f ∈ l) :
    l.find? (fun y => y.name == f.name) = some f :=
  find?_key_eq (fun f => f.name) h hf

theorem cmfCreated_types {a b : Model} :
    ∀ c ∈ cmfCreated a b, c.type = .CREATE_FIELD := by
  intro c hc
  obtain ⟨n, hn, hcn⟩ := List.mem_flatMap.1 hc
  split at hcn
  · simp at hcn
  · rw [List.mem_singleton] at hcn
    subst hcn
    rfl

theorem cmfDeleted_types {a b : Model} :
    ∀ c ∈ cmfDeleted a b, c.type = .DELETE_FIELD := by
  intro c hc
  obtain ⟨n, hn, hcn⟩ := List.mem_flatMap.1 hc
  split at hcn
  · simp at hcn
  · rw [List.mem_singleton] at hcn
    subst hcn
    rfl

theorem cmfModified_types {a b : Model} :
    ∀ c ∈ cmfModified a b, c.type = .ALTER_FIELD := by
  intro c hc
  obtain ⟨n, hn, hcn⟩ := List.mem_flatMap.1 hc
  split at hcn
  · split at hcn
    · split at hcn
      · rw [List.mem_singleton] at hcn
        subst hcn
        rfl
      · simp at hcn
    · simp at hcn
  · simp at hcn

theorem compareModelFields_grouped (a b : Model) :
    compareModelFields a b =
      (compareModelFields a b).filter (fun c => c.type == .CREATE_FIELD)
      ++ (compareModelFields a b).filter (fun c => c.type == .DELETE_FIELD)
      ++ (compareModelFields a b).filter (fun c => c.type == .ALTER_FIELD) := by
  have h1 : (cmfCreated a b).filter (fun c => c.type == .CREATE_FIELD)
      = cmfCreated a b :=
    List.filter_eq_self.2 (fun c hc => by rw [cmfCreated_types c hc]; decide)
  have h2 : (cmfDeleted a b).filter (fun c => c.type == .CREATE_FIELD) = [] :=
    List.filter_eq_nil_iff.2 (fun c hc => by rw [cmfDeleted_types c hc]; decide)
  have h3 : (cmfModified a b).filter (fun c => c.type == .CREATE_FIELD) = [] :=
    List.filter_eq_nil_iff.2 (fun c hc => by rw [cmfModified_types c hc]; decide)
  have h4 : (cmfCreated a b).filter (fun c => c.type == .DELETE_FIELD) = [] :=
    List.filter_eq_nil_iff.2 (fun c hc => by rw [cmfCreated_types c hc]; decide)
  have h5 : (cmfDeleted a b).filter (fun c => c.type == .DELETE_FIELD)
      = cmfDeleted a b :=
    List.filter_eq_self.2 (fun c hc => by rw [cmfDeleted_types c hc]; decide)
  have h6 : (cmfModified a b).filter (fun c => c.type == .DELETE_FIELD) = [] :=
    List.filter_eq_nil_iff.2 (fun c hc => by rw [cmfModified_types c hc]; decide)
  have h7 : (cmfCreated a b).filter (fun c => c.type == .ALTER_FIELD) = [] :=
    List.filter_eq_nil_iff.2 (fun c hc => by rw [cmfCreated_types c hc]; decide)
  have h8 : (cmfDeleted a b).filter (fun c => c.type == .ALTER_FIELD) = [] :=
    List.filter_eq_nil_iff.2 (fun c hc => by rw [cmfDeleted_types c hc]; decide)
  have h9 : (cmfModified a b).filter (fun c => c.type == .ALTER_FIELD)
      = cmfModified a b :=
    List.filter_eq_self.2 (fun c hc => by rw [cmfModified_types c hc]; decide)
  rw [compareModelFields]
  simp only [List.filter_append]
  rw [h1, h2, h3, h4, h5, h6, h7, h8, h9]
  simp

/-- Claim C4: under unique model names, the differ's output is exactly the
created-models section, then the deleted-models section, then — for each
model present in both, in old-schema order — that model's field changes,
which are themselves grouped as creates, then deletes, then alters; and every
field-level change names a model present in both schemas. -/
theorem c4_emission_order (oldS newS : ParsedSchema)
    (hold : (oldS.models.map (fun m => m.name)).Nodup)
    (hnew : (newS.models.map (fun m => m.name)).Nodup) :
    compareSchemas oldS newS =
      specCreatedModelChanges oldS newS ++ specDeletedModelChanges oldS newS
        ++ specCommonModelChanges oldS newS
    ∧ (∀ a b : Model, compareModelFields a b =
        (compareModelFields a b).filter (fun c => c.type == .CREATE_FIELD)
        ++ (compareModelFields a b).filter (fun c => c.type == .DELETE_FIELD)
        ++ (compareModelFields a b).filter (fun c => c.type == .ALTER_FIELD))
    ∧ ∀ c ∈ compareSchemas oldS newS,
        (c.type = .CREATE_FIELD ∨ c.type = .DELETE_FIELD
          ∨ c.type = .ALTER_FIELD) →
        ∃ mo ∈ oldS.models,
          (newS.models.map (fun x => x.name)).contains mo.name = true
          ∧ c.model = some mo.name := by
  have hcreated : csCreated oldS newS = specCreatedModelChanges oldS newS := by
    rw [csCreated, jsSetList_eq_self hnew, jsSetList_eq_self hold,
      List.flatMap_map]
    calc newS.models.flatMap (fun m =>
          if (oldS.models.map (fun x => x.name)).contains m.name then []
          else
            [{ type := .CREATE_MODEL, model := some m.name,
               newValue := (newS.models.find? (fun y => y.name == m.name)).map
                 ChangeValue.model }])
        = newS.models.flatMap (fun m =>
          if (oldS.models.map (fun x => x.name)).contains m.name then []
          else
            [{ type := .CREATE_MODEL, model := some m.name,
               newValue := some (.model m) }]) := by
          apply flatMap_congr_mem
          intro m hm
          by_cases hc :
            ((oldS.models.map (fun x => x.name)).contains m.name) = true
          · rw [if_pos hc, if_pos hc]
          · rw [if_neg hc, if_neg hc, find?_model_name_eq hnew hm]
            rfl
      _ = specCreatedModelChanges oldS newS := by
          rw [specCreatedModelChanges, flatMap_ite_nil_first]
  have hdeleted : csDeleted oldS newS = specDeletedModelChanges oldS newS := by
    rw [csDeleted, jsSetList_eq_self hnew, jsSetList_eq_self hold,
      List.flatMap_map, specDeletedModelChanges, flatMap_ite_nil_first]
  have hmodified : csModified oldS newS = specCommonModelChanges oldS newS := by
    rw [csModified, jsSetList_eq_self hnew, jsSetList_eq_self hold,
      List.flatMap_map]
    calc oldS.models.flatMap (fun m =>
          if (newS.models.map (fun x => x.name)).contains m.name then
            match oldS.models.find? (fun y => y.name == m.name),
                  newS.models.find? (fun y => y.name == m.name) with
            | some oldModel, some newModel => compareModelFields oldModel newModel
            | _, _ => []
          else [])
        = oldS.models.flatMap (fun m =>
          if (newS.models.map (fun x => x.name)).contains m.name then
            match newS.models.find? (fun y => y.name == m.name) with
            | some m2 => compareModelFields m m2
            | none => []
          else []) := by
          apply flatMap_congr_mem
          intro m hm
          by_cases hc :
            ((newS.models.map (fun x => x.name)).contains m.name) = true
          · rw [if_pos hc, if_pos hc, find?_model_name_eq hold hm]
            cases hf : newS.models.find? (fun y => y.name == m.name) with
            | some m2 => rfl
            | none => rfl
          · rw [if_neg hc, if_neg hc]
      _ = specCommonModelChanges oldS newS := by
          rw [specCommonModelChanges, flatMap_ite_body]
  refine ⟨?_, fun a b => compareModelFields_grouped a b, ?_⟩
  · rw [compareSchemas, hcreated, hdeleted, hmodified]
  · intro c hc hkind
    rw [compareSchemas] at hc
    rcases List.mem_append.1 hc with hc | hc
    · rcases List.mem_append.1 hc with hc | hc
      · obtain ⟨n, hn, hcn⟩ := List.mem_flatMap.1 hc
        split at hcn
        · simp at hcn
        · rw [List.mem_singleton] at hcn
          subst hcn
          rcases hkind with h | h | h <;> simp at h
      · obtain ⟨n, hn, hcn⟩ := List.mem_flatMap.1 hc
        split at hcn
        · simp at hcn
        · rw [List.mem_singleton] at hcn
          subst hcn
          rcases hkind with h | h | h <;> simp at h
    · obtain ⟨n, hn, hcn⟩ := List.mem_flatMap.1 hc
      split at hcn
      case isTrue hin =>
        split at hcn
        case _ om nm hom hnm =>
          have hmemo : om ∈ oldS.models := List.mem_of_find?_eq_some hom
          have homn : om.name = n := by
            have := List.find?_some hom
            simpa using this
          have hmemn : nm ∈ newS.models := List.mem_of_find?_eq_some hnm
          have hnmn : nm.name = n := by
            have := List.find?_some hnm
            simpa using this
          refine ⟨om, hmemo, ?_, ?_⟩
          · rw [homn]
            rw [jsSetList_eq_self hnew] at hin
            exact hin
          · obtain ⟨_, hmod, _⟩ := compareModelFields_shape c hcn
            rcases hmod with h | h
            · exact h
            · rw [h, hnmn, homn]
        all_goals simp at hcn
      case isFalse => simp at hcn

theorem alter_cond_iff {f g : ModelField} :
    (f.type != g.type || !(arraysEqual f.modifiers g.modifiers)
        || !(arraysEqual f.attributes g.attributes)) = true
      ↔ ¬ (f.type = g.type ∧ f.modifiers.Perm g.modifiers
            ∧ f.attributes.Perm g.attributes) := by
  have e1 : (arraysEqual f.modifiers g.modifiers = false)
      ↔ ¬ f.modifiers.Perm g.modifiers := by
    rw [← arraysEqual_iff_perm]
    simp
  have e2 : (arraysEqual f.attributes g.attributes = false)
      ↔ ¬ f.attributes.Perm g.attributes := by
    rw [← arraysEqual_iff_perm]
    simp
  simp only [Bool.or_eq_true, bne_iff_ne, Bool.not_eq_true', e1, e2,
    not_and_or]
  tauto

/-- At the level of one model's two versions: an `ALTER_FIELD` change is
emitted for a field present (by name) in both iff the type differs, or the
modifiers differ as a multiset, or the attributes differ as a multiset. -/
theorem compareModelFields_alter_iff (oldM newM : Model)
    (hold : (oldM.fields.map (fun f => f.name)).Nodup)
    (hnew : (newM.fields.map (fun f => f.name)).Nodup)
    {f g : ModelField} (hf : f ∈ oldM.fields) (hg : g ∈ newM.fields)
    (hname : f.name = g.name) :
    (∃ c ∈ compareModelFields oldM newM,
        c.type = .ALTER_FIELD ∧ c.field = some f.name)
      ↔ ¬ (f.type = g.type ∧ f.modifiers.Perm g.modifiers
            ∧ f.attributes.Perm g.attributes) := by
  constructor
  · rintro ⟨c, hc, htype, hfield⟩
    rw [compareModelFields] at hc
    rcases List.mem_append.1 hc with hc | hc
    · rcases List.mem_append.1 hc with hc | hc
      · rw [cmfCreated_types c hc] at htype
        exact absurd htype (by decide)
      · rw [cmfDeleted_types c hc] at htype
        exact absurd htype (by decide)
    · obtain ⟨n, hn, hcn⟩ := List.mem_flatMap.1 hc
      split at hcn
      case isTrue hin =>
        split at hcn
        case _ om nm hom hnm =>
          split at hcn
          case isTrue hcond =>
            rw [List.mem_singleton] at hcn
            subst hcn
            have hnf : n = f.name := by simpa using hfield
            subst hnf
            have homf : om = f := by
              rw [find?_field_name_eq hold hf] at hom
              exact (Option.some.inj hom).symm
            have hnmg : nm = g := by
              rw [hname, find?_field_name_eq hnew hg] at hnm
              exact (Option.some.inj hnm).symm
            subst homf
            subst hnmg
            exact alter_cond_iff.1 hcond
          case isFalse => simp at hcn
        all_goals simp at hcn
      case isFalse => simp at hcn
  · intro hne
    have hcond : (f.type != g.type || !(arraysEqual f.modifiers g.modifiers)
        || !(arraysEqual f.attributes g.attributes)) = true :=
      alter_cond_iff.2 hne
    refine ⟨⟨.ALTER_FIELD, some oldM.name, some f.name, some (.field f),
      some (.field g)⟩, ?_, rfl, rfl⟩
    rw [compareModelFields]
    refine List.mem_append.2 (Or.inr ?_)
    refine List.mem_flatMap.2 ⟨f.name,
      mem_jsSetList.2 (List.mem_map_of_mem _ hf), ?_⟩
    have hcont : (jsSetList (newM.fields.map (fun x => x.name))).contains
        f.name = true := by
      apply List.elem_iff.2
      apply mem_jsSetList.2
      rw [hname]
      exact List.mem_map_of_mem _ hg
    have hfindg : newM.fields.find? (fun y => y.name == f.name) = some g := by
      rw [hname]
      exact find?_field_name_eq hnew hg
    rw [if_pos hcont]
    simp only [find?_field_name_eq hold hf, hfindg]
    simp [hcond]

theorem flatMap_ite_singleton {l : List α} {p : α → Bool} {g : α → β} :
    l.flatMap (fun x => if p x then [g x] else []) = (l.filter p).map g := by
  induction l with
  | nil => rfl
  | cons a l ih =>
    by_cases h : p a = true <;>
      simp [List.flatMap_cons, List.filter_cons, h, ih]

/-- Claim C9: when every `migration.json` that exists is readable, the listing
returns exactly the migrations of those immediate subdirectories that contain
all three required files — any directory missing one is skipped without
aborting — sorted by timestamp ascending. -/
theorem c9_listing (entries : List MigrationDirEntry)
    (hwf : ∀ e ∈ entries, e.hasMetadata = true → e.metadata ≠ none) :
    getMigrations entries = specListedMigrations entries
    ∧ (getMigrations entries).Pairwise
        (fun a b => strLe a.timestamp b.timestamp = true) := by
  have hflat : entries.flatMap (fun e =>
      if !e.isDir then []
      else if e.hasMetadata && e.hasUpSql && e.hasDownSql then
        match e.metadata with
        | some (id, name, timestamp) =>
          [{ id := id, name := name, timestamp := timestamp,
             upSql := e.upSqlContent, downSql := e.downSqlContent }]
        | none => []
      else [])
      = (entries.filter (fun e =>
          e.isDir && e.hasMetadata && e.hasUpSql && e.hasDownSql)).map
          entryToMigration := by
    rw [← flatMap_ite_singleton]
    apply flatMap_congr_mem
    intro e he
    cases hd : e.isDir with
    | false => simp [hd]
    | true =>
      by_cases hflags : (e.hasMetadata && e.hasUpSql && e.hasDownSql) = true
      · have hmeta : e.hasMetadata = true := by
          rcases Bool.and_eq_true_iff.1 hflags with ⟨h1, _⟩
          exact (Bool.and_eq_true_iff.1 h1).1
        cases hm : e.metadata with
        | none => exact absurd hm (hwf e he hmeta)
        | some tri =>
          obtain ⟨id, name, ts⟩ := tri
          simp [hd, hflags, hm, entryToMigration]
      · simp [hd, hflags]
  constructor
  · rw [getMigrations, specListedMigrations, hflat]
  · rw [getMigrations]
    exact pairwise_sortBy
      (fun (a b : Migration) => strLe_total a.timestamp b.timestamp)
      (fun (a b c : Migration) h1 h2 => strLe_trans h1 h2) _

/-- Witness instantiating C9: the incomplete directory is skipped and exactly
one migration is listed. -/
theorem c9_listing_witness :
    ((getMigrations c9Entries).length = 1
      ∧ (getMigrations c9Entries).map (fun m => m.id) = ["20240101000000_a"])
    ∧ (getMigrations c9Entries = specListedMigrations c9Entries
      ∧ (getMigrations c9Entries).Pairwise
          (fun a b => strLe a.timestamp b.timestamp = true)) :=
  ⟨⟨by decide, by decide⟩, c9_listing c9Entries (by decide)⟩

/-- Witness instantiating C4 at schemas with a created model, a deleted model
and a common model with field-level changes. -/
theorem c4_emission_order_witness :
    ((c4Old.models.map (fun m => m.name)).Nodup
      ∧ (c4New.models.map (fun m => m.name)).Nodup)
    ∧ (compareSchemas c4Old c4New =
        specCreatedModelChanges c4Old c4New ++ specDeletedModelChanges c4Old c4New
          ++ specCommonModelChanges c4Old c4New
      ∧ (∀ a b : Model, compareModelFields a b =
          (compareModelFields a b).filter (fun c => c.type == .CREATE_FIELD)
          ++ (compareModelFields a b).filter (fun c => c.type == .DELETE_FIELD)
          ++ (compareModelFields a b).filter (fun c => c.type == .ALTER_FIELD))
      ∧ ∀ c ∈ compareSchemas c4Old c4New,
          (c.type = .CREATE_FIELD ∨ c.type = .DELETE_FIELD
            ∨ c.type = .ALTER_FIELD) →
          ∃ mo ∈ c4Old.models,
            (c4New.models.map (fun x => x.name)).contains mo.name = true
            ∧ c.model = some mo.name) :=
  ⟨⟨by decide, by decide⟩, c4_emission_order c4Old c4New (by decide) (by decide)⟩

theorem csCreated_types {a b : ParsedSchema} :
    ∀ c ∈ csCreated a b, c.type = .CREATE_MODEL := by
  intro c hc
  obtain ⟨n, hn, hcn⟩ := List.mem_flatMap.1 hc
  split at hcn
  · simp at hcn
  · rw [List.mem_singleton] at hcn
    subst hcn
    rfl

theorem csDeleted_types {a b : ParsedSchema} :
    ∀ c ∈ csDeleted a b, c.type = .DELETE_MODEL := by
  intro c hc
  obtain ⟨n, hn, hcn⟩ := List.mem_flatMap.1 hc
  split at hcn
  · simp at hcn
  · rw [List.mem_singleton] at hcn
    subst hcn
    rfl

/-- Claim C5: at the level of the whole diff, for a model present (by name)
in both schemas and a field present (by name) in both versions of that model
— all names unique — `diff` emits an `ALTER_FIELD` change for that model and
field iff the field's type differs, or its modifiers differ as an
order-insensitive multiset, or its attributes differ as a sorted multiset
(order-insensitive, duplicates significant).  In particular two fields
differing only in the order of identical attribute tokens produce no
`ALTER_FIELD` change. -/
theorem c5_alterfield_iff (oldS newS : ParsedSchema)
    (holdm : (oldS.models.map (fun m => m.name)).Nodup)
    (hnewm : (newS.models.map (fun m => m.name)).Nodup)
    {mo mn : Model} (hmo : mo ∈ oldS.models) (hmn : mn ∈ newS.models)
    (hmname : mo.name = mn.name)
    (holdf : (mo.fields.map (fun f => f.name)).Nodup)
    (hnewf : (mn.fields.map (fun f => f.name)).Nodup)
    {f g : ModelField} (hf : f ∈ mo.fields) (hg : g ∈ mn.fields)
    (hname : f.name = g.name) :
    (∃ c ∈ compareSchemas oldS newS,
        c.type = .ALTER_FIELD ∧ c.model = some mo.name
        ∧ c.field = some f.name)
      ↔ ¬ (f.type = g.type ∧ f.modifiers.Perm g.modifiers
            ∧ f.attributes.Perm g.attributes) := by
  have hfind_old : oldS.models.find? (fun y => y.name == mo.name) = some mo :=
    find?_model_name_eq holdm hmo
  have hfind_new : newS.models.find? (fun y => y.name == mo.name) = some mn := by
    rw [hmname]
    exact find?_model_name_eq hnewm hmn
  constructor
  · rintro ⟨c, hc, htype, hmodel, hfield⟩
    rw [compareSchemas] at hc
    rcases List.mem_append.1 hc with hc | hc
    · rcases List.mem_append.1 hc with hc | hc
      · rw [csCreated_types c hc] at htype
        exact absurd htype (by decide)
      · rw [csDeleted_types c hc] at htype
        exact absurd htype (by decide)
    · obtain ⟨n, hn, hcn⟩ := List.mem_flatMap.1 hc
      split at hcn
      case isTrue hin =>
        split at hcn
        case _ om nm hom hnm =>
          have hcmodel := (compareModelFields_shape c hcn).2.1
          have homn : om.name = n := by
            have := List.find?_some hom
            simpa using this
          have hnmn : nm.name = n := by
            have := List.find?_some hnm
            simpa using this
          have hn_mo : n = mo.name := by
            rcases hcmodel with h | h
            · rw [hmodel] at h
              rw [← homn]
              exact (Option.some.inj h).symm
            · rw [hmodel] at h
              rw [← hnmn]
              exact (Option.some.inj h).symm
          subst hn_mo
          have hom_mo : om = mo := by
            rw [hfind_old] at hom
            exact (Option.some.inj hom).symm
          have hnm_mn : nm = mn := by
            rw [hfind_new] at hnm
            exact (Option.some.inj hnm).symm
          rw [hom_mo, hnm_mn] at hcn
          exact (compareModelFields_alter_iff mo mn holdf hnewf hf hg
            hname).1 ⟨c, hcn, htype, hfield⟩
        all_goals simp at hcn
      case isFalse => simp at hcn
  · intro hne
    obtain ⟨c, hc, htype, hfield⟩ :=
      (compareModelFields_alter_iff mo mn holdf hnewf hf hg hname).2 hne
    have hcmodel : c.model = some mo.name := by
      rcases (compareModelFields_shape c hc).2.1 with h | h
      · exact h
      · rw [h, ← hmname]
    refine ⟨c, ?_, htype, hcmodel, hfield⟩
    rw [compareSchemas]
    refine List.mem_append.2 (Or.inr ?_)
    refine List.mem_flatMap.2 ⟨mo.name,
      mem_jsSetList.2 (List.mem_map_of_mem _ hmo), ?_⟩
    have hcont : (jsSetList (newS.models.map (fun m => m.name))).contains
        mo.name = true := by
      apply List.elem_iff.2
      apply mem_jsSetList.2
      rw [hmname]
      exact List.mem_map_of_mem _ hmn
    rw [if_pos hcont]
    simp only [hfind_old, hfind_new]
    exact hc

/-- Witness instantiating C5 at a schema pair whose one common model has two
field versions differing only in attribute order. -/
theorem c5_alterfield_iff_witness :
    ((c5OldSchema.models.map (fun m => m.name)).Nodup
      ∧ (c5NewSchema.models.map (fun m => m.name)).Nodup
      ∧ c5OldModel ∈ c5OldSchema.models ∧ c5NewModel ∈ c5NewSchema.models
      ∧ c5OldModel.name = c5NewModel.name
      ∧ (c5OldModel.fields.map (fun f => f.name)).Nodup
      ∧ (c5NewModel.fields.map (fun f => f.name)).Nodup
      ∧ c5Field1 ∈ c5OldModel.fields ∧ c5Field2 ∈ c5NewModel.fields
      ∧ c5Field1.name = c5Field2.name)
    ∧ ((∃ c ∈ compareSchemas c5OldSchema c5NewSchema,
        c.type = .ALTER_FIELD ∧ c.model = some c5OldModel.name
        ∧ c.field = some c5Field1.name)
      ↔ ¬ (c5Field1.type = c5Field2.type
            ∧ c5Field1.modifiers.Perm c5Field2.modifiers
            ∧ c5Field1.attributes.Perm c5Field2.attributes)) :=
  ⟨⟨by decide, by decide, by decide, by decide, by decide, by decide,
    by decide, by decide, by decide, by decide⟩,
    @c5_alterfield_iff c5OldSchema c5NewSchema (by decide) (by decide)
      c5OldModel c5NewModel (by decide) (by decide) (by decide) (by decide)
      (by decide) c5Field1 c5Field2 (by decide) (by decide) (by decide)⟩

end DbMig


